import Mathlib

/-!
Verification of the turkle task pipeline (`hits/models.py`).

The Python module is embedded shallowly:

* Python dicts (`input_csv_fields`, `answers`, CSV records, result rows)
  are association lists built exclusively through `dictInsert`, which
  mirrors dict assignment: an existing key has its value replaced in
  place, a new key is appended.  `dict(zip(header, row))` and the
  `dict`-comprehension updates of `_results_data` are folds of
  `dictInsert` over the corresponding pair sequences.
* `str.replace` is embedded as `pyReplace`: a single left-to-right pass
  over the subject string replacing every non-overlapping occurrence of
  the (always non-empty) pattern.
* `re.findall` for the pattern dollar/brace/word-chars/brace is embedded
  as `findTokens`, a left-to-right scanner that, at each position, either
  matches a complete token (and resumes after it) or advances one
  character, exactly as the regex engine does for this pattern (the
  greedy `\w+` cannot backtrack into a `\x7d` match, so
  takeWhile-then-check is exact).
* Django query sets are lists; `order_by('-id')` is a sort descending by
  `id`; auto-increment primary keys are modelled by `create_hits_from_csv`
  threading a next-id counter.
* Python exceptions (`IndexError` from `hits[0]`, `NameError` from the
  unbound globals in `_results_data_groups`, the `DictWriter` `ValueError`)
  are `Except.error`.
-/

/-! ## Python dict model -/

/-- One dict assignment `d[k] = v`: replace the value of an existing key in
place, otherwise append the new pair at the end. -/
def dictInsert : List (String × String) → String × String → List (String × String)
  | [], kv => [kv]
  | e :: rest, kv => if e.1 = kv.1 then (e.1, kv.2) :: rest else e :: dictInsert rest kv

/-- Build a dict from a sequence of key/value pairs by successive
assignment, as `dict(pairs)` does: later pairs overwrite earlier ones. -/
def dictOfPairs (ps : List (String × String)) : List (String × String) :=
  ps.foldl dictInsert []

/-- Dict lookup `d[k]` / `d.get(k)`. -/
def dictLookup (d : List (String × String)) (k : String) : Option String :=
  (d.find? (fun kv => kv.1 == k)).map Prod.snd

/-- The key list of a dict (`d.keys()`). -/
def keys (d : List (String × String)) : List String :=
  d.map Prod.fst

/-! ## Python `str.replace` -/

/-- Fuel-driven core of `str.replace`: one left-to-right pass, replacing
every non-overlapping occurrence of `pat`.  The fuel is the length of the
subject, which each step strictly consumes; all patterns used by the
source (`"$\x7b" ++ field ++ "\x7d"`) are non-empty. -/
def replaceFuel (pat rep : List Char) : Nat → List Char → List Char
  | 0, l => l
  | _ + 1, [] => []
  | fuel + 1, c :: rest =>
    if pat ≠ [] ∧ pat.isPrefixOf (c :: rest) then
      rep ++ replaceFuel pat rep fuel (List.drop pat.length (c :: rest))
    else
      c :: replaceFuel pat rep fuel rest

/-- Python `s.replace(pat, rep)` for non-empty `pat`. -/
def pyReplace (s pat rep : String) : String :=
  String.mk (replaceFuel pat.data rep.data s.data.length s.data)

/-- `pat` occurs as a contiguous substring of `s`. -/
def occursIn (pat s : List Char) : Bool :=
  s.tails.any (fun t => pat.isPrefixOf t)

/-! ## The sort order of Python `sorted` on strings -/

/-- Lexicographic comparison of char sequences by code point, the order
`sorted` uses on Python unicode strings. -/
def charListLe : List Char → List Char → Bool
  | [], _ => true
  | _ :: _, [] => false
  | a :: as, b :: bs =>
    if a.toNat < b.toNat then true
    else if b.toNat < a.toNat then false
    else charListLe as bs

/-- `a <= b` for strings under Python's sort order. -/
def strLe (a b : String) : Bool :=
  charListLe a.data b.data

/-! ## Field-name extraction (`re.findall` for the token pattern) -/

/-- `\w` of the source regex: an ASCII letter, digit or underscore. -/
def isWordChar (c : Char) : Bool :=
  c.isAlpha || c.isDigit || c = '_'

/-- Left-to-right scan for non-overlapping matches of
dollar, open brace, `\w+`, close brace; on a failed match attempt the
scanner retries from the next character, as the regex engine does. -/
def scanTokens : Nat → List Char → List (List Char)
  | 0, _ => []
  | _ + 1, [] => []
  | fuel + 1, c :: rest =>
    if c = '$' then
      match rest with
      | [] => []
      | b :: rest2 =>
        if b = '\x7b' then
          let w := rest2.takeWhile isWordChar
          match rest2.dropWhile isWordChar with
          | close :: r2 =>
            if close = '\x7d' ∧ w ≠ [] then w :: scanTokens fuel r2
            else scanTokens fuel rest
          | [] => scanTokens fuel rest
        else scanTokens fuel rest
    else scanTokens fuel rest

/-- All identifiers captured by `re.findall` of the token pattern over a
template text, in match order, duplicates included. -/
def findTokens (s : String) : List String :=
  (scanTokens s.data.length s.data).map String.mk

/-! ## Data model -/

/-- A HIT (`Hit` model): completion flag, the per-row input fields and the
submitted answers, plus the auto-increment primary key. -/
structure Hit where
  id : Nat
  completed : Bool
  input_csv_fields : List (String × String)
  answers : List (String × String)
deriving DecidableEq, Repr

/-- A HIT template (`HitTemplate` model): the form text and the derived
`fieldnames` attribute (the keys of the stored JSON dict). -/
structure HitTemplate where
  form : String
  fieldnames : List String
deriving DecidableEq, Repr

/-! ## Hit methods -/

/-- `Hit.get_output_csv_fieldnames`: the sorted list of
`Input.`-prefixed input keys together with `Answer.`-prefixed answer
keys. -/
def Hit.get_output_csv_fieldnames (h : Hit) : List String :=
  List.insertionSort (fun a b => strLe a b = true)
    (h.input_csv_fields.map (fun kv => "Input." ++ kv.1) ++
      h.answers.map (fun kv => "Answer." ++ kv.1))

/-- `Hit.generate_form`: for each input field in dict iteration order,
`str.replace` its token in the accumulated text, then wrap the result in
the margin div and the border div. -/
def generate_form (form : String) (input_csv_fields : List (String × String)) : String :=
  let result := input_csv_fields.foldl
    (fun acc kv => pyReplace acc ("$\x7b" ++ kv.1 ++ "\x7d") kv.2) form
  let margined := "<div style=\"margin:10px\">" ++ result ++ "</div>"
  "<div style=\" width:100%; border:2px solid black; margin-top:10px\">" ++ margined ++ "</div>"

/-- The inner spacing wrapper of `generate_form` (`margin % result`). -/
def margin_wrap (s : String) : String :=
  "<div style=\"margin:10px\">" ++ s ++ "</div>"

/-- The outer bordered wrapper of `generate_form` (`border % result`,
with `%%` collapsing to `%`). -/
def border_wrap (s : String) : String :=
  "<div style=\" width:100%; border:2px solid black; margin-top:10px\">" ++ s ++ "</div>"

/-- The substitution loop of `generate_form` before wrapping. -/
def subst_fold (form : String) (fields : List (String × String)) : String :=
  fields.foldl (fun acc kv => pyReplace acc ("$\x7b" ++ kv.1 ++ "\x7d") kv.2) form

/-- `Hit.save`: drop the reserved `csrfmiddlewaretoken` key from `answers`
before persisting. -/
def Hit.save (h : Hit) : Hit :=
  { h with answers := h.answers.filter (fun kv => kv.1 != "csrfmiddlewaretoken") }

/-! ## HitTemplate methods -/

/-- `HitTemplate.save`: recompute `fieldnames` from the current form text
as the deduplicated token set, then persist. -/
def HitTemplate.save (t : HitTemplate) : HitTemplate :=
  { t with fieldnames := (findTokens t.form).dedup }

/-! ## HitBatch methods -/

/-- The record construction `dict(zip(header, row))` of
`create_hits_from_csv`. -/
def dict_from_row (header row : List String) : List (String × String) :=
  dictOfPairs (header.zip row)

/-- `HitBatch.create_hits_from_csv` after `_parse_csv`: walk the data
rows, skip a row `r` with `not r` (the empty cell list), and save one Hit
per remaining row; ids are assigned by the auto-increment key. -/
def create_hits_from_csv (header : List String) : List (List String) → Nat → List Hit
  | [], _ => []
  | row :: rest, next_id =>
    if row.isEmpty then create_hits_from_csv header rest next_id
    else
      { id := next_id, completed := false,
        input_csv_fields := dict_from_row header row, answers := [] } ::
        create_hits_from_csv header rest (next_id + 1)

/-- `HitBatch.finished_hits`: the completed hits of the batch ordered by
`-id` (descending primary key). -/
def finished_hits (hit_set : List Hit) : List Hit :=
  List.insertionSort (fun a b => b.id ≤ a.id) (hit_set.filter (fun h => h.completed))

/-- One output row of `HitBatch._results_data`: an empty dict updated
with the `Input.`-prefixed input pairs and then the `Answer.`-prefixed
answer pairs. -/
def results_row (h : Hit) : List (String × String) :=
  dictOfPairs
    (h.input_csv_fields.map (fun kv => ("Input." ++ kv.1, kv.2)) ++
      h.answers.map (fun kv => ("Answer." ++ kv.1, kv.2)))

/-- `HitBatch._results_data`: fieldnames are taken from `hits[0]`, which
raises `IndexError` on an empty collection; otherwise one row per hit. -/
def results_data (hits : List Hit) :
    Except String (List String × List (List (String × String))) :=
  match hits with
  | [] => Except.error "IndexError: list index out of range"
  | h :: t => Except.ok (h.get_output_csv_fieldnames, (h :: t).map results_row)

/-- `HitBatch.to_csv`: write the header then one line per finished hit;
`DictWriter` fills a missing key with the empty string and raises
`ValueError` on a key outside the field names. -/
def to_csv (hit_set : List Hit) : Except String (List (List String)) :=
  match results_data (finished_hits hit_set) with
  | Except.error e => Except.error e
  | Except.ok (fns, rows) =>
    if rows.all (fun row => row.all (fun kv => fns.contains kv.1)) then
      Except.ok (fns :: rows.map (fun row => fns.map (fun f => (dictLookup row f).getD "")))
    else
      Except.error "ValueError: dict contains fields not in fieldnames"

/-- `HitBatch._results_data_groups`: the body builds the per-hit schema
tuples from its `hits` parameter, but the grouping loop zips the unbound
global name `completed_hits` and the final line maps the unbound global
name `results_data` (the parameter is `hits` and the method is
`self._results_data`), so every call raises `NameError` when Python
executes the zip. -/
def results_data_groups (hits : List Hit) :
    Except String (List (List String × List (List (String × String)))) :=
  let _hit_fieldname_tuples := hits.map (fun h => h.get_output_csv_fieldnames)
  Except.error "NameError: global name 'completed_hits' is not defined"

/-- The spec's notion of an entirely empty CSV row: no cells at all, or
every cell the empty string. -/
def row_is_blank (r : List String) : Bool :=
  r.isEmpty || r.all (fun c => c = "")

/-! ## Order facts about the string sort order -/

theorem charListLe_total : ∀ a b : List Char, charListLe a b = true ∨ charListLe b a = true := by
  intro a
  induction a with
  | nil => intro b; left; rfl
  | cons x xs ih =>
    intro b
    cases b with
    | nil => right; rfl
    | cons y ys =>
      rcases Nat.lt_trichotomy x.toNat y.toNat with hlt | heq | hgt
      · left; simp [charListLe, hlt]
      · rcases ih ys with h | h
        · left; simp [charListLe, heq, h]
        · right; simp [charListLe, heq.symm, h]
      · right; simp [charListLe, hgt]

theorem charListLe_trans : ∀ a b c : List Char,
    charListLe a b = true → charListLe b c = true → charListLe a c = true := by
  intro a
  induction a with
  | nil => intro b c _ _; rfl
  | cons x xs ih =>
    intro b c hab hbc
    cases b with
    | nil => simp [charListLe] at hab
    | cons y ys =>
      cases c with
      | nil => simp [charListLe] at hbc
      | cons z zs =>
        simp only [charListLe] at hab hbc ⊢
        split_ifs at hab hbc ⊢ with h1 h2 h3 h4 h5 h6 <;> try omega
        all_goals try rfl
        all_goals try simp_all
        exact ih ys zs hab hbc

theorem charListLe_antisymm : ∀ a b : List Char,
    charListLe a b = true → charListLe b a = true → a = b := by
  intro a
  induction a with
  | nil =>
    intro b _ hba
    cases b with
    | nil => rfl
    | cons y ys => simp [charListLe] at hba
  | cons x xs ih =>
    intro b hab hba
    cases b with
    | nil => simp [charListLe] at hab
    | cons y ys =>
      simp only [charListLe] at hab hba
      by_cases h1 : x.toNat < y.toNat
      · have h2 : ¬ y.toNat < x.toNat := by omega
        simp [h1, h2] at hba
      · by_cases h2 : y.toNat < x.toNat
        · simp [h1, h2] at hab
        · simp [h1, h2] at hab hba
          have hn : x.toNat = y.toNat := by omega
          rw [Char.ext (UInt32.ext hn), ih ys hab hba]

instance strLe_isTotal : IsTotal String (fun a b => strLe a b = true) :=
  ⟨fun a b => charListLe_total a.data b.data⟩

instance strLe_isTrans : IsTrans String (fun a b => strLe a b = true) :=
  ⟨fun a b c => charListLe_trans a.data b.data c.data⟩

instance strLe_isAntisymm : IsAntisymm String (fun a b => strLe a b = true) :=
  ⟨fun a b hab hba => String.ext (charListLe_antisymm a.data b.data hab hba)⟩

instance hitDescId_isTotal : IsTotal Hit (fun a b : Hit => b.id ≤ a.id) :=
  ⟨fun a b => Nat.le_total b.id a.id⟩

instance hitDescId_isTrans : IsTrans Hit (fun a b : Hit => b.id ≤ a.id) :=
  ⟨fun _ _ _ hab hbc => Nat.le_trans hbc hab⟩

/-! ## Dict lemmas -/

theorem keys_dictInsert (d : List (String × String)) (kv : String × String) :
    keys (dictInsert d kv) = if kv.1 ∈ keys d then keys d else keys d ++ [kv.1] := by
  induction d with
  | nil => simp [dictInsert, keys]
  | cons e rest ih =>
    by_cases he : e.1 = kv.1
    · simp [dictInsert, keys, he]
    · have hne : kv.1 ≠ e.1 := fun h => he h.symm
      simp only [dictInsert, if_neg he, keys, List.map_cons, List.mem_cons]
      simp only [keys] at ih
      by_cases hm : kv.1 ∈ rest.map Prod.fst
      · simp [ih, hm, hne]
      · simp [ih, hm, hne]

theorem dictLookup_dictInsert_self (d : List (String × String)) (kv : String × String) :
    dictLookup (dictInsert d kv) kv.1 = some kv.2 := by
  induction d with
  | nil => simp [dictInsert, dictLookup]
  | cons e rest ih =>
    by_cases he : e.1 = kv.1
    · simp [dictInsert, dictLookup, he, List.find?]
    · simp only [dictInsert, if_neg he]
      simp only [dictLookup, List.find?] at ih ⊢
      have : (e.1 == kv.1) = false := beq_false_of_ne he
      simp [this, ih]

theorem dictLookup_dictInsert_ne (d : List (String × String)) (kv : String × String)
    (k : String) (hk : k ≠ kv.1) :
    dictLookup (dictInsert d kv) k = dictLookup d k := by
  induction d with
  | nil =>
    have : (kv.1 == k) = false := beq_false_of_ne (fun h => hk h.symm)
    simp [dictInsert, dictLookup, List.find?, this]
  | cons e rest ih =>
    by_cases he : e.1 = kv.1
    · have h1 : (e.1 == k) = false := beq_false_of_ne (by rw [he]; exact fun h => hk h.symm)
      simp only [dictInsert, if_pos he]
      simp [dictLookup, List.find?, h1]
    · simp only [dictInsert, if_neg he]
      simp only [dictLookup, List.find?] at ih ⊢
      cases hbe : (e.1 == k) <;> simp [hbe, ih]

theorem mem_keys_dictInsert (d : List (String × String)) (kv : String × String) (k : String) :
    k ∈ keys (dictInsert d kv) ↔ k ∈ keys d ∨ k = kv.1 := by
  rw [keys_dictInsert]
  by_cases hm : kv.1 ∈ keys d
  · simp only [if_pos hm]
    constructor
    · exact Or.inl
    · rintro (h | rfl)
      · exact h
      · exact hm
  · simp [if_neg hm]

theorem nodup_keys_dictInsert (d : List (String × String)) (kv : String × String)
    (hd : (keys d).Nodup) : (keys (dictInsert d kv)).Nodup := by
  rw [keys_dictInsert]
  by_cases hm : kv.1 ∈ keys d
  · simpa [if_pos hm]
  · simp only [if_neg hm]
    exact List.Nodup.append hd (List.nodup_singleton kv.1)
      (fun a ha hb => by
        simp only [List.mem_singleton] at hb
        exact hm (hb ▸ ha))

/-- Associativity of `Option.or` by cases. -/
theorem optionOr_assoc (a b c : Option String) : (a.or b).or c = a.or (b.or c) := by
  cases a <;> rfl

/-- `getLast?` of a cons as an `Option.or` fallback. -/
theorem getLast?_cons_or {α : Type} (a : α) (l : List α) :
    (a :: l).getLast? = (l.getLast?).or (some a) := by
  induction l generalizing a with
  | nil => rfl
  | cons b rest ih =>
    rw [List.getLast?_cons_cons, ih b]
    cases rest.getLast? <;> rfl

theorem dictLookup_foldl (k : String) : ∀ (ps : List (String × String))
    (d : List (String × String)),
    dictLookup (ps.foldl dictInsert d) k =
      (((ps.filter (fun p => p.1 == k)).getLast?).map Prod.snd).or (dictLookup d k) := by
  intro ps
  induction ps with
  | nil => intro d; simp
  | cons p rest ih =>
    intro d
    rw [List.foldl_cons, ih (dictInsert d p)]
    by_cases hp : p.1 = k
    · have hbe : (p.1 == k) = true := beq_iff_eq.mpr hp
      have hself : dictLookup (dictInsert d p) k = some p.2 := by
        rw [← hp] at *
        exact dictLookup_dictInsert_self d p
      rw [hself]
      simp only [List.filter_cons, hbe, if_pos, getLast?_cons_or]
      cases hF : (List.filter (fun q => q.1 == k) rest).getLast? <;> simp [hF]
    · have hbe : (p.1 == k) = false := beq_false_of_ne hp
      rw [dictLookup_dictInsert_ne d p k (fun h => hp h.symm)]
      simp [List.filter_cons, hbe]

theorem mem_keys_foldl : ∀ (ps : List (String × String)) (d : List (String × String))
    (k : String),
    k ∈ keys (ps.foldl dictInsert d) ↔ k ∈ keys d ∨ k ∈ ps.map Prod.fst := by
  intro ps
  induction ps with
  | nil => intro d k; simp
  | cons p rest ih =>
    intro d k
    rw [List.foldl_cons, ih (dictInsert d p), mem_keys_dictInsert]
    simp only [List.map_cons, List.mem_cons]
    tauto

theorem nodup_keys_foldl : ∀ (ps : List (String × String)) (d : List (String × String)),
    (keys d).Nodup → (keys (ps.foldl dictInsert d)).Nodup := by
  intro ps
  induction ps with
  | nil => intro d hd; exact hd
  | cons p rest ih =>
    intro d hd
    exact ih (dictInsert d p) (nodup_keys_dictInsert d p hd)

/-! ## `str.replace` lemmas -/

/-- A replacement whose pattern does not occur in the subject is the
identity. -/
theorem replaceFuel_no_occur (pat rep : List Char) :
    ∀ (fuel : Nat) (l : List Char), occursIn pat l = false →
      replaceFuel pat rep fuel l = l := by
  intro fuel
  induction fuel with
  | zero => intro l _; rfl
  | succ n ih =>
    intro l hno
    cases l with
    | nil => rfl
    | cons c rest =>
      have hpre : pat.isPrefixOf (c :: rest) = false := by
        by_contra h
        have : pat.isPrefixOf (c :: rest) = true := by
          cases hx : pat.isPrefixOf (c :: rest)
          · exact absurd hx h
          · rfl
        have : occursIn pat (c :: rest) = true := by
          simp only [occursIn, List.tails, List.any_cons]
          rw [this]
          rfl
        rw [this] at hno
        cases hno
      have hrest : occursIn pat rest = false := by
        simp only [occursIn, List.tails, List.any_cons, Bool.or_eq_false_iff] at hno
        exact hno.2
      simp only [replaceFuel, hpre, Bool.and_eq_true, and_false]
      rw [if_neg (by simp [hpre])]
      rw [ih rest hrest]

/-! ## Claims -/

/-- C1: the spec demands a single left-to-right pass over the original
template with substituted values never rescanned, so rendering `$\x7ba\x7d`
with fields `a ↦ $\x7bb\x7d`, `b ↦ X` should give the literal `$\x7bb\x7d`
inside the wrappers.  The code instead folds `str.replace` over the
fields, so the substituted value `$\x7bb\x7d` is rescanned when `b` is
processed and the output is the wrappers around `X`. -/
theorem turkle_c1_double_substitution :
    generate_form "$\x7ba\x7d" [("a", "$\x7bb\x7d"), ("b", "X")] = border_wrap (margin_wrap "X")
    ∧ generate_form "$\x7ba\x7d" [("a", "$\x7bb\x7d"), ("b", "X")]
        ≠ border_wrap (margin_wrap "$\x7bb\x7d") := by
  exact ⟨by decide, by decide⟩

/-- C2 counterexample: the claim says every row whose cells are all empty
strings is skipped, so the three data rows below should yield 2 tasks;
the code only skips a row that parses to the empty cell list, so the row
`["", ""]` produces a task and 3 tasks are created. -/
theorem turkle_c2_counterexample :
    (create_hits_from_csv ["a", "b"] [["x", "y"], ["", ""], ["p", "q"]] 1).length = 3
    ∧ (([["x", "y"], ["", ""], ["p", "q"]].filter (fun r => !(row_is_blank r))).length = 2) := by
  exact ⟨by decide, by decide⟩

/-- C2 amended: during batch creation exactly the rows that parse to zero
cells (zero-length lines) are skipped; every other row — including a row
whose cells are all empty strings — produces exactly one Task, so a CSV
with an empty line between two data rows produces exactly 2 Tasks. -/
theorem turkle_c2_blank_rows : ∀ (header : List String) (rows : List (List String)) (n : Nat),
    (create_hits_from_csv header rows n).length = (rows.filter (fun r => !r.isEmpty)).length
    ∧ (create_hits_from_csv header rows n).map (fun h => h.input_csv_fields)
        = (rows.filter (fun r => !r.isEmpty)).map (fun r => dict_from_row header r)
    ∧ (create_hits_from_csv ["a", "b"] [["1", "2"], [], ["3", "4"]] 1).length = 2 := by
  intro header rows
  induction rows with
  | nil => intro n; exact ⟨rfl, rfl, by decide⟩
  | cons row rest ih =>
    intro n
    by_cases hrow : row.isEmpty
    · have := ih n
      refine ⟨?_, ?_, by decide⟩
      · simpa [create_hits_from_csv, hrow, List.filter_cons] using this.1
      · simpa [create_hits_from_csv, hrow, List.filter_cons] using this.2.1
    · have := ih (n + 1)
      have hb : row.isEmpty = false := by
        cases hx : row.isEmpty
        · rfl
        · exact absurd hx hrow
      refine ⟨?_, ?_, by decide⟩
      · simpa [create_hits_from_csv, hb, List.filter_cons] using this.1
      · simpa [create_hits_from_csv, hb, List.filter_cons] using this.2.1

/-- C3: the claim describes grouped aggregation partitioning tasks by
output schema; the code of `_results_data_groups` references the unbound
names `completed_hits` and `results_data`, so any call — here two
completed tasks with answer key-sets `{y}` and `{y, z}` — raises
`NameError` instead of grouping. -/
theorem turkle_c3_name_error :
    results_data_groups
        [⟨1, true, [], [("y", "a")]⟩, ⟨2, true, [], [("y", "b"), ("z", "c")]⟩]
      = Except.error "NameError: global name 'completed_hits' is not defined" := rfl

/-- C4: ungrouped aggregation takes its header from the first task, so an
empty completed-task collection raises `IndexError`, which `to_csv`
propagates to the caller instead of defaulting to an empty header; a
non-empty collection yields the first task's schema as header. -/
theorem turkle_c4_empty_reported :
    results_data [] = Except.error "IndexError: list index out of range"
    ∧ to_csv [⟨1, false, [("a", "1")], []⟩]
        = Except.error "IndexError: list index out of range"
    ∧ ∀ (h : Hit) (t : List Hit),
        results_data (h :: t)
          = Except.ok (h.get_output_csv_fieldnames, (h :: t).map results_row) :=
  ⟨rfl, rfl, fun _ _ => rfl⟩

/-- C5 counterexample: the claim says each token of a key present in the
map is replaced by that field's value verbatim, so `$\x7bp\x7d` with
`p ↦ $\x7bq\x7d`, `q ↦ Y` should render to the wrappers around
`$\x7bq\x7d`; the code renders the wrappers around `Y`. -/
theorem turkle_c5_counterexample :
    generate_form "$\x7bp\x7d" [("p", "$\x7bq\x7d"), ("q", "Y")] = border_wrap (margin_wrap "Y")
    ∧ generate_form "$\x7bp\x7d" [("p", "$\x7bq\x7d"), ("q", "Y")]
        ≠ border_wrap (margin_wrap "$\x7bq\x7d") := by
  exact ⟨by decide, by decide⟩

/-- C5 amended: rendering folds one `str.replace` per key of the map, in
iteration order, over the partially substituted text — so every
occurrence of a present key's token is replaced, but a substituted value
containing a later key's token is itself substituted rather than kept
verbatim; a token pattern that does not occur in a string leaves that
string unchanged (absent tokens stay literal); and the result is wrapped
in exactly the two fixed nested divs, inner `margin:10px`, outer
`width:100%` with a 2px solid border and `margin-top:10px`. -/
theorem turkle_c5_render_shape :
    (∀ (form : String) (fields : List (String × String)),
        generate_form form fields = border_wrap (margin_wrap (subst_fold form fields)))
    ∧ (∀ s pat rep : String, occursIn pat.data s.data = false → pyReplace s pat rep = s)
    ∧ generate_form "Hi $\x7bname\x7d, $\x7bmissing\x7d" [("name", "Bob")]
        = border_wrap (margin_wrap "Hi Bob, $\x7bmissing\x7d")
    ∧ generate_form "$\x7ba\x7d and $\x7ba\x7d" [("a", "v")]
        = border_wrap (margin_wrap "v and v") := by
  refine ⟨fun _ _ => rfl, fun s pat rep hno => ?_, by decide, by decide⟩
  rw [pyReplace, replaceFuel_no_occur pat.data rep.data s.data.length s.data hno]

/-- C5 witness: the no-occurrence clause of the amended rendering theorem
at a concrete template and pattern. -/
theorem turkle_c5_render_shape_witness :
    occursIn "$\x7bz\x7d".data "Hello".data = false
    ∧ pyReplace "Hello" "$\x7bz\x7d" "v" = "Hello" :=
  ⟨by decide, turkle_c5_render_shape.2.1 "Hello" "$\x7bz\x7d" "v" (by decide)⟩

/-- C6: after every save a template's stored `fieldnames` are exactly the
deduplicated identifiers captured by the non-overlapping matches of the
token pattern over the current form text: the stored list is
duplicate-free, its members are exactly the extracted tokens, the
extraction is recomputed in full on each save (the result is independent
of the previously stored `fieldnames`, and saving again changes
nothing), and a concrete template with a repeated token stores each name
once. -/
theorem turkle_c6_fieldnames_invariant : ∀ t : HitTemplate,
    ((HitTemplate.save t).fieldnames).Nodup
    ∧ (∀ s, s ∈ (HitTemplate.save t).fieldnames ↔ s ∈ findTokens t.form)
    ∧ (∀ fns, (HitTemplate.save { form := t.form, fieldnames := fns }).fieldnames
        = (HitTemplate.save t).fieldnames)
    ∧ (HitTemplate.save (HitTemplate.save t)).fieldnames = (HitTemplate.save t).fieldnames
    ∧ (HitTemplate.save ⟨"<p>$\x7bname\x7d $\x7bage\x7d $\x7bname\x7d</p>", ["stale"]⟩).fieldnames
        = ["age", "name"] := by
  intro t
  exact ⟨List.nodup_dedup _, fun s => List.mem_dedup, fun fns => rfl, rfl, by decide⟩

/-- C7: a task's output schema is a sorted permutation of the
`Input.`-prefixed input keys together with the `Answer.`-prefixed answer
keys, with one column per key (no merging); a task with input key `x`
and answer key `x` gets the two distinct columns `Answer.x` and
`Input.x`. -/
theorem turkle_c7_schema_namespacing : ∀ h : Hit,
    List.Perm h.get_output_csv_fieldnames
        (h.input_csv_fields.map (fun kv => "Input." ++ kv.1) ++
          h.answers.map (fun kv => "Answer." ++ kv.1))
    ∧ h.get_output_csv_fieldnames.Sorted (fun a b => strLe a b = true)
    ∧ h.get_output_csv_fieldnames.length = h.input_csv_fields.length + h.answers.length
    ∧ Hit.get_output_csv_fieldnames ⟨0, true, [("x", "1")], [("x", "2")]⟩
        = ["Answer.x", "Input.x"] := by
  intro h
  refine ⟨List.perm_insertionSort _ _, List.sorted_insertionSort _ _, ?_, by decide⟩
  simp [Hit.get_output_csv_fieldnames]

/-- C8: `Hit.save` strips the reserved `csrfmiddlewaretoken` key from the
answers before persisting, so a saved task's answers never contain the
key and its output schema never contains the column
`Answer.csrfmiddlewaretoken`; answers `y ↦ ok, csrfmiddlewaretoken ↦ abc`
yield the single output column `Answer.y`. -/
theorem turkle_c8_csrf_stripped : ∀ h : Hit,
    "csrfmiddlewaretoken" ∉ keys (Hit.save h).answers
    ∧ "Answer.csrfmiddlewaretoken" ∉ Hit.get_output_csv_fieldnames (Hit.save h)
    ∧ Hit.get_output_csv_fieldnames
        (Hit.save ⟨7, true, [], [("y", "ok"), ("csrfmiddlewaretoken", "abc")]⟩)
      = ["Answer.y"] := by
  intro h
  refine ⟨?_, ?_, by decide⟩
  · intro hmem
    simp only [keys, Hit.save, List.mem_map] at hmem
    obtain ⟨kv, hkv, hfst⟩ := hmem
    have hp := List.of_mem_filter hkv
    rw [hfst] at hp
    simp at hp
  · intro hmem
    have hmem2 := ((List.perm_insertionSort _ _).mem_iff).mp hmem
    rcases List.mem_append.mp hmem2 with hin | hans
    · obtain ⟨kv, _, heq⟩ := List.mem_map.mp hin
      have hd := congrArg String.data heq
      rw [String.data_append] at hd
      have hh := congrArg (fun l => l.head?) hd
      simp at hh
    · obtain ⟨kv, hkvmem, heq⟩ := List.mem_map.mp hans
      have heq2 : "Answer." ++ kv.1 = "Answer." ++ "csrfmiddlewaretoken" := heq
      have hdata := congrArg String.data heq2
      rw [String.data_append, String.data_append] at hdata
      have hk : kv.1 = "csrfmiddlewaretoken" :=
        String.ext (List.append_cancel_left hdata)
      simp only [Hit.save] at hkvmem
      have hp := List.of_mem_filter hkvmem
      rw [hk] at hp
      simp at hp

/-- C9: `finished_hits` filters a batch's tasks to the completed ones and
orders them by descending primary key, so whenever the stored order has
strictly increasing ids (auto-increment keys follow creation order) the
finished view is exactly the reverse of creation order, most recently
created first. -/
theorem turkle_c9_finished_reverse (hit_set : List Hit)
    (hinc : hit_set.Pairwise (fun a b => a.id < b.id)) :
    finished_hits hit_set = (hit_set.filter (fun h => h.completed)).reverse := by
  have hf : (hit_set.filter (fun h => h.completed)).Pairwise (fun a b => a.id < b.id) :=
    hinc.sublist (List.filter_sublist hit_set)
  have hperm : List.Perm (finished_hits hit_set) (hit_set.filter (fun h => h.completed)) :=
    List.perm_insertionSort _ _
  have hsorted : (finished_hits hit_set).Sorted (fun a b : Hit => b.id ≤ a.id) :=
    List.sorted_insertionSort _ _
  have hne_f : (hit_set.filter (fun h => h.completed)).Pairwise (fun a b => a.id ≠ b.id) :=
    hf.imp (fun hab => Nat.ne_of_lt hab)
  have hne : (finished_hits hit_set).Pairwise (fun a b => a.id ≠ b.id) :=
    (hperm.pairwise_iff (fun hab => hab.symm)).mpr hne_f
  have hstrict : (finished_hits hit_set).Pairwise (fun a b => b.id < a.id) := by
    have hand := List.Pairwise.and hsorted hne
    exact hand.imp (fun hab => Nat.lt_of_le_of_ne hab.1 (fun hx => hab.2 hx.symm))
  have hrev : ((hit_set.filter (fun h => h.completed)).reverse).Pairwise
      (fun a b => b.id < a.id) := by
    rw [List.pairwise_reverse]
    exact hf
  have hperm2 : List.Perm (finished_hits hit_set)
      ((hit_set.filter (fun h => h.completed)).reverse) :=
    hperm.trans (List.reverse_perm _).symm
  haveI : IsAntisymm Hit (fun a b => b.id < a.id) :=
    ⟨fun _ _ h1 h2 => absurd h2 (Nat.lt_asymm h1)⟩
  exact List.eq_of_perm_of_sorted hperm2 hstrict hrev

/-- C9 witness: three tasks created in id order 1, 2, 3 with tasks 1 and
3 completed; the finished view lists 3 before 1. -/
theorem turkle_c9_finished_reverse_witness :
    ([⟨1, true, [("a", "1")], []⟩, ⟨2, false, [], []⟩, ⟨3, true, [], [("y", "v")]⟩] :
        List Hit).Pairwise (fun a b => a.id < b.id)
    ∧ finished_hits
        [⟨1, true, [("a", "1")], []⟩, ⟨2, false, [], []⟩, ⟨3, true, [], [("y", "v")]⟩]
      = ([⟨1, true, [("a", "1")], []⟩, ⟨2, false, [], []⟩,
          ⟨3, true, [], [("y", "v")]⟩].filter (fun h => h.completed)).reverse :=
  ⟨by decide, turkle_c9_finished_reverse _ (by decide)⟩

/-- C10: the record construction `dict(zip(header, row))` maps a header
name appearing at several positions to the cell of its last zipped
occurrence (later pairs overwrite earlier ones), and the record holds
exactly one entry per distinct zipped header name; header
`[a, b, a]` with row `[1, 2, 3]` maps `a` to `3`. -/
theorem turkle_c10_duplicate_header : ∀ (header row : List String) (k : String),
    dictLookup (dict_from_row header row) k
      = ((header.zip row).filter (fun p => p.1 == k)).getLast?.map Prod.snd
    ∧ (keys (dict_from_row header row)).Nodup
    ∧ (k ∈ keys (dict_from_row header row) ↔ k ∈ (header.zip row).map Prod.fst)
    ∧ dictLookup (dict_from_row ["a", "b", "a"] ["1", "2", "3"]) "a" = some "3" := by
  intro header row k
  refine ⟨?_, ?_, ?_, by decide⟩
  · rw [dict_from_row, dictOfPairs, dictLookup_foldl]
    simp [dictLookup]
  · exact nodup_keys_foldl _ _ (by simp [keys])
  · rw [dict_from_row, dictOfPairs, mem_keys_foldl]
    simp [keys]
